import Mathlib

/-!
Shallow embedding of the cost-analysis ingestion/aggregation pipeline of
this repository (the executable variant `app1.py`; the near-duplicate
`app.py` is syntactically broken at its `cost_columns` line, and its
`Diff %` fragment is embedded separately below).

Monetary amounts are embedded as exact rationals `ℚ`; the Python code's
float sums/products are modelled by exact arithmetic.  Cell values coming
out of the spreadsheet are `CellValue` (missing / text / numeric).
-/

namespace CostsYTD

/-- One spreadsheet cell of a monetary column: `blank` models a
missing value (`pd.isna`), `text` a string cell, `num` a numeric cell. -/
inductive CellValue : Type where
  | blank : CellValue
  | text (s : String) : CellValue
  | num (q : ℚ) : CellValue
deriving DecidableEq

/-- Value of a decimal digit list, most significant first
(accumulator form, as a number parser would). -/
def natOfDigits (cs : List Char) : Nat :=
  cs.foldl (fun a c => a * 10 + (c.toNat - 48)) 0

/-- All characters are decimal digits. -/
def allDigits (cs : List Char) : Bool :=
  cs.all Char.isDigit

/-- Drop surrounding whitespace from a character list (models the
whitespace tolerance of Python `float`). -/
def trimWs (cs : List Char) : List Char :=
  ((cs.dropWhile Char.isWhitespace).reverse.dropWhile Char.isWhitespace).reverse

/-- Parse an unsigned decimal literal `digits[.digits]` (either side of
the point may be empty, but not both), as Python `float` accepts. -/
def parseUnsigned (cs : List Char) : Option ℚ :=
  let ip := cs.takeWhile (fun c => c ≠ '.')
  match cs.dropWhile (fun c => c ≠ '.') with
  | [] =>
      if ip ≠ [] ∧ allDigits ip then some (natOfDigits ip) else none
  | _ :: fp =>
      if '.' ∈ fp then none
      else if ip = [] ∧ fp = [] then none
      else if allDigits ip ∧ allDigits fp then
        some ((natOfDigits ip : ℚ) + (natOfDigits fp : ℚ) / (10 ^ fp.length))
      else none

/-- Parse an optionally signed decimal literal; models the subset of
Python `float(str)` exercised by monetary cells. -/
def parseDecCore (cs : List Char) : Option ℚ :=
  match cs with
  | '-' :: t => (parseUnsigned t).map (fun q => -q)
  | '+' :: t => parseUnsigned t
  | t => parseUnsigned t

/-- Remove every comma and every space, as
`value.replace(',', '').replace(' ', '')` does in `clean_numeric`. -/
def stripSeps (s : String) : List Char :=
  s.toList.filter (fun c => !(c == ',' || c == ' '))

/-- `clean_numeric` of `app1.py` (lines 67–78): blank/missing and the
literal `''`/`' '` strings become 0; a string is stripped of commas and
spaces and parsed, any parse failure becoming 0; a numeric cell passes
through. -/
def clean_numeric : CellValue → ℚ
  | CellValue.blank => 0
  | CellValue.text s =>
      if s = "" ∨ s = " " then 0
      else
        let cs := stripSeps s
        if cs = [] then 0 else (parseDecCore (trimWs cs)).getD 0
  | CellValue.num q => q

/-- The static `EXCHANGE_RATES` dictionary of `app1.py` (lines 40–48),
rates to EUR as exact rationals. -/
def EXCHANGE_RATES : List (String × ℚ) :=
  [("EUR", 1), ("GBP", 117/100), ("USD", 23/25),
   ("KRW", 69/100000), ("AUD", 3/5), ("SGD", 17/25)]

/-- Dictionary lookup `EXCHANGE_RATES[c]`. -/
def lookupRate (c : String) : Option ℚ :=
  (EXCHANGE_RATES.find? (fun p => p.1 == c)).map Prod.snd

/-- `str(x).strip().upper()` applied to a currency code. -/
def normCurr (s : String) : String :=
  String.mk ((trimWs s.toList).map Char.toUpper)

/-- `convert_to_eur` of `app1.py` (lines 87–106), returning the converted
value together with the list of sidebar warnings it emits: a missing cell
reads as 0; a zero value short-circuits to 0; a missing currency defaults
to EUR; an unknown (normalized) code is passed through unconverted with a
warning unless the code is empty or the string `NAN`; a known code
multiplies by its rate. -/
def convert_to_eur (cell : Option ℚ) (curr : Option String) : ℚ × List String :=
  let value := match cell with
    | some v => v
    | none => 0
  if value = 0 then (0, [])
  else
    let currency := match curr with
      | some c => normCurr c
      | none => "EUR"
    match lookupRate currency with
    | none =>
        (value, if currency ≠ "" ∧ currency ≠ "NAN" then [currency] else [])
    | some r => (value * r, [])

/-- One raw spreadsheet row, restricted to the columns the ingestion
pipeline reads for the properties below: `ORD DT` arrives already put
through `pd.to_datetime(..., errors='coerce')`, so it is `none` (NaT)
when unparseable and `some (year, month)` otherwise; `CURR` is `none`
when the cell is NA.  The remaining monetary columns (`PU COST`, …) are
cleaned and converted by the identical per-column code path as
`Total cost` and `NET` and are omitted. -/
structure RawRow : Type where
  acct : String
  acctNm : String
  status : String
  curr : Option String
  ordDt : Option (Int × Nat)
  totalCost : CellValue
  net : CellValue
deriving DecidableEq

/-- Month bucket of a parsed-or-NaT date:
`df['ORD DT'].dt.to_period('M').astype(str)` renders a date as
`"YYYY-MM"` and NaT as the string `"NaT"`. -/
def monthKey : Option (Int × Nat) → String
  | none => "NaT"
  | some (y, m) =>
      toString y ++ "-" ++ (if m < 10 then "0" ++ toString m else toString m)

/-- One processed (normalized) record as produced by
`load_and_process_data` of `app1.py`. -/
structure PRec : Type where
  acct : String
  acctNm : String
  month : String
  costEUR : ℚ
  netEUR : ℚ
deriving DecidableEq

/-- Clean and convert the monetary columns of one retained row and
derive its month bucket (lines 80–121 of `app1.py`, per row). -/
def processRec (r : RawRow) : PRec :=
  { acct := r.acct
    acctNm := r.acctNm
    month := monthKey r.ordDt
    costEUR := (convert_to_eur (some (clean_numeric r.totalCost)) r.curr).1
    netEUR := (convert_to_eur (some (clean_numeric r.net)) r.curr).1 }

/-- The sidebar warnings the conversion of one row emits (one
`convert_to_eur` call per monetary column). -/
def rowWarnings (r : RawRow) : List String :=
  (convert_to_eur (some (clean_numeric r.totalCost)) r.curr).2 ++
  (convert_to_eur (some (clean_numeric r.net)) r.curr).2

/-- `load_and_process_data` of `app1.py`: keep only rows with
`STATUS == '440-BILLED'` (line 61), then clean, convert and bucket each
retained row; also collect every warning emitted during the pass. -/
def load_and_process_data (rows : List RawRow) : List PRec × List String :=
  let billed := rows.filter (fun r => r.status == "440-BILLED")
  (billed.map processRec, billed.flatMap rowWarnings)

/-- Distinct elements of a list in first-occurrence order (the distinct
group keys of a group-by). -/
def uniqueKeys {α : Type} [DecidableEq α] : List α → List α
  | [] => []
  | k :: t => k :: (uniqueKeys t).filter (fun x => x ≠ k)

/-- Group key of the account group-by: `(ACCT, ACCT NM)`. -/
def akey (p : PRec) : String × String := (p.acct, p.acctNm)

/-- Per-account sum of `Total cost_EUR`. -/
def groupCost (l : List PRec) (k : String × String) : ℚ :=
  ((l.filter (fun p => akey p = k)).map PRec.costEUR).sum

/-- Per-account sum of `NET_EUR`. -/
def groupNet (l : List PRec) (k : String × String) : ℚ :=
  ((l.filter (fun p => akey p = k)).map PRec.netEUR).sum

/-- Per-account order count (`'ORD#': 'count'`). -/
def groupCount (l : List PRec) (k : String × String) : Nat :=
  (l.filter (fun p => akey p = k)).length

/-- One account aggregate row of `account_summary`. -/
structure Agg : Type where
  acct : String
  acctNm : String
  costSum : ℚ
  netSum : ℚ
  count : Nat
  diff : ℚ
deriving DecidableEq

/-- `account_summary` of `app1.py` (lines 236–246): group the filtered
records by `(ACCT, ACCT NM)`, sum the EUR columns, count orders, and set
`Difference = NET_EUR − Total cost_EUR`. -/
def account_summary (l : List PRec) : List Agg :=
  (uniqueKeys (l.map akey)).map (fun k =>
    { acct := k.1
      acctNm := k.2
      costSum := groupCost l k
      netSum := groupNet l k
      count := groupCount l k
      diff := groupNet l k - groupCost l k })

/-- Selection predicate of `negative_accounts` (lines 249–252):
negative difference, or positive cost with zero NET. -/
def negPred (a : Agg) : Bool :=
  decide (a.diff < 0) || (decide (0 < a.costSum) && decide (a.netSum = 0))

/-- `negative_accounts` of `app1.py` (lines 249–252 and the
`sort_values('Difference')` at line 280): filter the account summary and
sort ascending by `Difference`. -/
def negative_accounts (l : List PRec) : List Agg :=
  ((account_summary l).filter negPred).mergeSort
    (fun x y => decide (x.diff ≤ y.diff))

/-- Distinct month buckets of the processed records. -/
def monthKeys (l : List PRec) : List String :=
  uniqueKeys (l.map PRec.month)

/-- Per-month sum of `Total cost_EUR` (the monthly group-by). -/
def monthCost (l : List PRec) (m : String) : ℚ :=
  ((l.filter (fun p => p.month = m)).map PRec.costEUR).sum

/-- An IEEE-style float value restricted to what the `Diff %` column of
`app.py` can produce: a finite (here exact-rational) number, a signed
infinity, or NaN. -/
inductive FloatVal : Type where
  | fin (q : ℚ) : FloatVal
  | pinf : FloatVal
  | ninf : FloatVal
  | nan : FloatVal
deriving DecidableEq

/-- Float division of two finite values with numpy/IEEE semantics:
`x / 0` is `±inf` by the sign of `x`, and `0 / 0` is NaN (pandas raises
no exception on a float column). -/
def fpDiv (a b : ℚ) : FloatVal :=
  if b = 0 then
    if 0 < a then FloatVal.pinf else if a < 0 then FloatVal.ninf else FloatVal.nan
  else FloatVal.fin (a / b)

/-- Multiply a float value by a finite constant (IEEE: infinities keep
or flip sign with the constant's sign, `inf * 0` is NaN). -/
def fpScale (x : FloatVal) (c : ℚ) : FloatVal :=
  match x with
  | FloatVal.fin q => FloatVal.fin (q * c)
  | FloatVal.pinf =>
      if 0 < c then FloatVal.pinf else if c < 0 then FloatVal.ninf else FloatVal.nan
  | FloatVal.ninf =>
      if 0 < c then FloatVal.ninf else if c < 0 then FloatVal.pinf else FloatVal.nan
  | FloatVal.nan => FloatVal.nan

/-- Round-half-to-even to an integer (numpy rounding). -/
def roundHalfEven (q : ℚ) : ℤ :=
  let f := ⌊q⌋
  if q - f < 1/2 then f
  else if 1/2 < q - f then f + 1
  else if f % 2 = 0 then f else f + 1

/-- `.round(2)` on a float value: infinities and NaN pass through. -/
def fpRound2 : FloatVal → FloatVal
  | FloatVal.fin q => FloatVal.fin ((roundHalfEven (q * 100) : ℚ) / 100)
  | x => x

/-- The `Diff %` column of `account_diff` in `app.py` (lines 316–317):
`(Difference / Total Cost * 100).round(2)` under float semantics. -/
def diffPct (costSum netSum : ℚ) : FloatVal :=
  fpRound2 (fpScale (fpDiv (netSum - costSum) costSum) 100)

/-- `account_diff` of `app.py`: the same account group-by sums as
`account_summary`, each paired with its `Diff %` value. -/
def account_diff (l : List PRec) : List (Agg × FloatVal) :=
  (account_summary l).map (fun a => (a, diffPct a.costSum a.netSum))

/-- Scenario input for the status-filter property: three rows with
statuses 440-BILLED, 300-PENDING, 440-BILLED. -/
def statusRows : List RawRow :=
  [ { acct := "A1", acctNm := "Alpha", status := "440-BILLED", curr := some "EUR",
      ordDt := some (2025, 1), totalCost := CellValue.num 100, net := CellValue.num 120 },
    { acct := "A2", acctNm := "Beta", status := "300-PENDING", curr := some "EUR",
      ordDt := some (2025, 1), totalCost := CellValue.num 50, net := CellValue.num 60 },
    { acct := "A3", acctNm := "Gamma", status := "440-BILLED", curr := some "GBP",
      ordDt := some (2025, 2), totalCost := CellValue.num 10, net := CellValue.num 5 } ]

/-- Two billed rows carrying the same unknown currency code XYZ with a
nonzero total cost each. -/
def unknownCurrRows : List RawRow :=
  [ { acct := "A1", acctNm := "Alpha", status := "440-BILLED", curr := some "XYZ",
      ordDt := some (2025, 1), totalCost := CellValue.num 5, net := CellValue.num 0 },
    { acct := "A2", acctNm := "Beta", status := "440-BILLED", curr := some "XYZ",
      ordDt := some (2025, 1), totalCost := CellValue.num 7, net := CellValue.num 0 } ]

/-- One billed row whose order date failed to parse (NaT). -/
def natRow : RawRow :=
  { acct := "A1", acctNm := "Alpha", status := "440-BILLED", curr := some "EUR",
    ordDt := none, totalCost := CellValue.num 100, net := CellValue.num 90 }

/-- A processed record whose account has zero total cost and positive
NET. -/
def zeroCostRec : PRec :=
  { acct := "B", acctNm := "Beta", month := "2025-01", costEUR := 0, netEUR := 5 }

/-- A small processed record set (the spec's end-to-end scenario after
conversion): two rows of account A, one of account B. -/
def demoRecs : List PRec :=
  [ { acct := "A", acctNm := "Alpha", month := "2025-01", costEUR := 100, netEUR := 120 },
    { acct := "A", acctNm := "Alpha", month := "2025-02", costEUR := 117/2, netEUR := 0 },
    { acct := "B", acctNm := "Beta", month := "2025-01", costEUR := 46/5, netEUR := 23/5 } ]

/-- The record set of `demoRecs` with its first two rows swapped. -/
def demoRecsPerm : List PRec :=
  [ { acct := "A", acctNm := "Alpha", month := "2025-02", costEUR := 117/2, netEUR := 0 },
    { acct := "A", acctNm := "Alpha", month := "2025-01", costEUR := 100, netEUR := 120 },
    { acct := "B", acctNm := "Beta", month := "2025-01", costEUR := 46/5, netEUR := 23/5 } ]

theorem mem_uniqueKeys {α : Type} [DecidableEq α] (l : List α) (x : α) :
    x ∈ uniqueKeys l ↔ x ∈ l := by
  induction l with
  | nil => simp [uniqueKeys]
  | cons k t ih =>
      simp only [uniqueKeys, List.mem_cons, List.mem_filter, ih, decide_eq_true_eq]
      by_cases hx : x = k
      · simp [hx]
      · simp [hx]

theorem nodup_uniqueKeys {α : Type} [DecidableEq α] (l : List α) :
    (uniqueKeys l).Nodup := by
  induction l with
  | nil => simp [uniqueKeys]
  | cons k t ih =>
      simp only [uniqueKeys]
      refine List.Nodup.cons ?_ (List.Nodup.filter _ ih)
      intro hk
      have hmem := List.mem_filter.mp hk
      simp at hmem

theorem sum_filter_split {α : Type} (l : List α) (p : α → Bool) (f : α → ℚ) :
    ((l.filter p).map f).sum + ((l.filter (fun a => !p a)).map f).sum
      = (l.map f).sum := by
  induction l with
  | nil => simp
  | cons a t ih =>
      by_cases h : p a
      · simp only [List.filter_cons, h, if_pos, Bool.not_true, if_neg, List.map_cons,
          List.sum_cons, Bool.false_eq_true, not_false_iff, List.map, ite_true, ite_false]
        rw [add_assoc, ih]
      · have h' : p a = false := by simpa using h
        simp only [List.filter_cons, h', Bool.not_false, List.map_cons, List.sum_cons,
          Bool.false_eq_true, ite_true, ite_false]
        linarith [ih]

theorem sum_over_groups {α κ : Type} [DecidableEq κ] (key : α → κ) (f : α → ℚ) :
    ∀ (ks : List κ) (rows : List α), ks.Nodup → (∀ r ∈ rows, key r ∈ ks) →
      (ks.map (fun k => ((rows.filter (fun r => key r = k)).map f).sum)).sum
        = (rows.map f).sum := by
  intro ks
  induction ks with
  | nil =>
      intro rows _ hcov
      have hempty : rows = [] := by
        refine List.eq_nil_iff_forall_not_mem.mpr (fun r hr => ?_)
        simpa using hcov r hr
      subst hempty; simp
  | cons k ks ih =>
      intro rows hnd hcov
      have hk : k ∉ ks := (List.nodup_cons.mp hnd).1
      have hnd' : ks.Nodup := (List.nodup_cons.mp hnd).2
      have hsub : ∀ k2 ∈ ks,
          ((rows.filter (fun r => key r = k2)).map f).sum
            = (((rows.filter (fun r => !(decide (key r = k)))).filter
                (fun r => key r = k2)).map f).sum := by
        intro k2 hk2
        have hne : k2 ≠ k := fun h => hk (h ▸ hk2)
        congr 2
        rw [List.filter_filter]
        refine (List.filter_congr (fun r _ => ?_)).symm
        by_cases hr : key r = k2
        · simp [hr, hne]
        · simp [hr]
      have hcov' : ∀ r ∈ rows.filter (fun r => !(decide (key r = k))), key r ∈ ks := by
        intro r hr
        have hr2 := List.mem_filter.mp hr
        have hin := hcov r hr2.1
        have hne : ¬ key r = k := by simpa using hr2.2
        rcases List.mem_cons.mp hin with h | h
        · exact absurd h hne
        · exact h
      calc
        (((k :: ks).map
            (fun k2 => ((rows.filter (fun r => key r = k2)).map f).sum)).sum)
            = ((rows.filter (fun r => key r = k)).map f).sum
              + ((ks.map
                  (fun k2 => ((rows.filter (fun r => key r = k2)).map f).sum)).sum) := by
              simp [List.sum_cons]
        _ = ((rows.filter (fun r => key r = k)).map f).sum
              + ((ks.map (fun k2 =>
                  (((rows.filter (fun r => !(decide (key r = k)))).filter
                    (fun r => key r = k2)).map f).sum)).sum) := by
              rw [List.map_congr_left hsub]
        _ = ((rows.filter (fun r => key r = k)).map f).sum
              + ((rows.filter (fun r => !(decide (key r = k)))).map f).sum := by
              rw [ih _ hnd' hcov']
        _ = (rows.map f).sum := by
              have := sum_filter_split rows (fun r => decide (key r = k)) f
              simpa using this

theorem sum_map_sub {α : Type} (l : List α) (f g : α → ℚ) :
    (l.map (fun x => f x - g x)).sum = (l.map f).sum - (l.map g).sum := by
  induction l with
  | nil => simp
  | cons a t ih =>
      simp only [List.map_cons, List.sum_cons, ih]
      ring

theorem convert_to_eur_some (v : ℚ) (c : String) :
    convert_to_eur (some v) (some c) =
      if v = 0 then (0, [])
      else
        match lookupRate (normCurr c) with
        | none =>
            (v, if normCurr c ≠ "" ∧ normCurr c ≠ "NAN" then [normCurr c] else [])
        | some r => (v * r, []) := rfl

theorem convert_to_eur_known (v : ℚ) (c : String) (r : ℚ)
    (h : lookupRate (normCurr c) = some r) :
    (convert_to_eur (some v) (some c)).1 = v * r := by
  rw [convert_to_eur_some]
  by_cases h0 : v = 0
  · simp [h0]
  · simp [h0, h]

theorem convert_to_eur_unknown (v : ℚ) (c : String)
    (h : lookupRate (normCurr c) = none) :
    (convert_to_eur (some v) (some c)).1 = v := by
  rw [convert_to_eur_some]
  by_cases h0 : v = 0
  · simp [h0]
  · simp [h0, h]

theorem convert_to_eur_warnings (v : ℚ) (c : String)
    (h : lookupRate (normCurr c) = none) (hv : v ≠ 0)
    (h1 : normCurr c ≠ "") (h2 : normCurr c ≠ "NAN") :
    (convert_to_eur (some v) (some c)).2 = [normCurr c] := by
  rw [convert_to_eur_some]
  rw [if_neg hv]
  simp [h, h1, h2]

theorem convert_to_eur_zero (c : Option String) :
    convert_to_eur (some 0) c = (0, []) := by
  unfold convert_to_eur
  simp

theorem convert_to_eur_none_curr (v : ℚ) :
    convert_to_eur (some v) none = if v = 0 then (0, []) else (v * 1, []) := rfl

theorem lookupRate_pos (c : String) (r : ℚ) (h : lookupRate c = some r) :
    0 < r := by
  unfold lookupRate at h
  rcases hf : EXCHANGE_RATES.find? (fun p => p.1 == c) with _ | p
  · rw [hf] at h
    simp at h
  · rw [hf] at h
    have hr : r = p.2 := by
      simpa using h.symm
    have hmem : p ∈ EXCHANGE_RATES := List.mem_of_find?_eq_some hf
    subst hr
    unfold EXCHANGE_RATES at hmem
    fin_cases hmem <;> norm_num

theorem clean_numeric_parse_none (s : String)
    (hs : parseDecCore (trimWs (stripSeps s)) = none) :
    clean_numeric (CellValue.text s) = 0 := by
  simp only [clean_numeric]
  by_cases h1 : s = "" ∨ s = " "
  · simp [h1]
  · by_cases h2 : stripSeps s = []
    · simp [h1, h2]
    · simp [h1, h2, hs]

theorem clean_numeric_parse_some (s : String) (q : ℚ)
    (hq : parseDecCore (trimWs (stripSeps s)) = some q) :
    clean_numeric (CellValue.text s) = q := by
  simp only [clean_numeric]
  have hempty : parseDecCore (trimWs (stripSeps "")) = none := by decide
  have hspace : parseDecCore (trimWs (stripSeps " ")) = none := by decide
  have hnil : parseDecCore (trimWs ([] : List Char)) = none := by decide
  have h1 : ¬ (s = "" ∨ s = " ") := by
    rintro (h | h)
    · rw [h, hempty] at hq
      exact Option.noConfusion hq
    · rw [h, hspace] at hq
      exact Option.noConfusion hq
  have h2 : ¬ stripSeps s = [] := by
    intro h
    rw [h, hnil] at hq
    exact Option.noConfusion hq
  simp [h1, h2, hq]

/-- C1: for every row whose currency code, after trimming whitespace and
upper-casing, is in the exchange-rate table, each reporting-currency
monetary field of the processed record equals the cleaned raw amount
multiplied by that code's rate; in particular a total cost of 100 with
currency GBP converts to 117. -/
theorem c1_conversion_multiplies_by_rate :
    (∀ (row : RawRow) (c : String) (r : ℚ), row.curr = some c →
        lookupRate (normCurr c) = some r →
        (processRec row).costEUR = clean_numeric row.totalCost * r ∧
        (processRec row).netEUR = clean_numeric row.net * r) ∧
    (convert_to_eur (some 100) (some "GBP")).1 = 117 := by
  constructor
  · intro row c r hc hr
    constructor
    · show (convert_to_eur (some (clean_numeric row.totalCost)) row.curr).1 = _
      rw [hc, convert_to_eur_known _ _ _ hr]
    · show (convert_to_eur (some (clean_numeric row.net)) row.curr).1 = _
      rw [hc, convert_to_eur_known _ _ _ hr]
  · have h : (convert_to_eur (some 100) (some "GBP")).1 = 100 * (117/100 : ℚ) := rfl
    rw [h]
    norm_num

/-- Witness for C1: the conversion theorem applied to a concrete billed
GBP row with cleaned total cost 100 gives 100 × 1.17 = 117. -/
theorem c1_conversion_multiplies_by_rate_witness :
    (processRec
        { acct := "A3", acctNm := "Gamma", status := "440-BILLED",
          curr := some "GBP", ordDt := some (2025, 2),
          totalCost := CellValue.num 100, net := CellValue.num 5 }).costEUR
      = 100 * (117/100 : ℚ) :=
  (c1_conversion_multiplies_by_rate.1 _ "GBP" (117/100) rfl rfl).1

/-- C2: numeric cleaning sends blank/missing cells to 0, parses a text
cell after removing separators (never raising: a failed parse is 0), and
cleans the strings of the form 1,234.50 and 1234.50 to the same exact
amount 1234.50. -/
theorem c2_numeric_cleaning :
    clean_numeric CellValue.blank = 0 ∧
    (∀ s : String, parseDecCore (trimWs (stripSeps s)) = none →
        clean_numeric (CellValue.text s) = 0) ∧
    (∀ (s : String) (q : ℚ), parseDecCore (trimWs (stripSeps s)) = some q →
        clean_numeric (CellValue.text s) = q) ∧
    clean_numeric (CellValue.text "1,234.50") = 2469/2 ∧
    clean_numeric (CellValue.text "1234.50") = 2469/2 := by
  have hd1 : natOfDigits ['1', '2', '3', '4'] = 1234 := by decide
  have hd2 : natOfDigits ['5', '0'] = 50 := by decide
  have e1 : clean_numeric (CellValue.text "1,234.50")
      = (natOfDigits ['1', '2', '3', '4'] : ℚ)
        + (natOfDigits ['5', '0'] : ℚ) / (10 ^ 2) := rfl
  have e2 : clean_numeric (CellValue.text "1234.50")
      = (natOfDigits ['1', '2', '3', '4'] : ℚ)
        + (natOfDigits ['5', '0'] : ℚ) / (10 ^ 2) := rfl
  exact ⟨rfl, clean_numeric_parse_none, clean_numeric_parse_some,
    by rw [e1, hd1, hd2]; norm_num, by rw [e2, hd1, hd2]; norm_num⟩

/-- Witness for C2: the parse-failure clause at the malformed string
abc, and the parse-success clause at the plain string 12. -/
theorem c2_numeric_cleaning_witness :
    clean_numeric (CellValue.text "abc") = 0 ∧
    clean_numeric (CellValue.text "12") = ((12 : ℕ) : ℚ) :=
  ⟨c2_numeric_cleaning.2.1 "abc" (by decide),
   c2_numeric_cleaning.2.2.1 "12" ((12 : ℕ) : ℚ) rfl⟩

/-- C3 counterexample: in one ingestion pass over two billed rows that
both carry the unknown currency code XYZ on a nonzero total cost, the
unknown-currency notice is recorded twice — not once per distinct
unknown code. -/
theorem c3_counterexample :
    (load_and_process_data unknownCurrRows).2.count "XYZ" = 2 := rfl

/-- C3 amended: a row with an unrecognized currency code is converted by
the identity (factor 1.0), and the notice is emitted once per nonzero
monetary cell of such a row (zero cells are skipped by the zero
short-circuit), not once per distinct code per pass. -/
theorem c3_amended_unknown_currency :
    (∀ (v : ℚ) (c : String), lookupRate (normCurr c) = none →
        (convert_to_eur (some v) (some c)).1 = v) ∧
    (∀ (row : RawRow) (c : String), row.curr = some c →
        lookupRate (normCurr c) = none → normCurr c ≠ "" → normCurr c ≠ "NAN" →
        (rowWarnings row).count (normCurr c)
          = (if clean_numeric row.totalCost = 0 then 0 else 1)
            + (if clean_numeric row.net = 0 then 0 else 1)) := by
  constructor
  · intro v c h
    exact convert_to_eur_unknown v c h
  · intro row c hc h h1 h2
    have hcomp : ∀ w : ℚ, ((convert_to_eur (some w) (some c)).2).count (normCurr c)
        = if w = 0 then 0 else 1 := by
      intro w
      by_cases hw : w = 0
      · rw [convert_to_eur_some, if_pos hw, if_pos hw]
        rfl
      · rw [convert_to_eur_warnings w c h hw h1 h2, if_neg hw]
        simp
    unfold rowWarnings
    rw [hc, List.count_append, hcomp, hcomp]

/-- Witness for the amended C3: identity conversion and the per-cell
notice count at a concrete XYZ row. -/
theorem c3_amended_unknown_currency_witness :
    (convert_to_eur (some 5) (some "XYZ")).1 = 5 ∧
    (rowWarnings
        { acct := "A1", acctNm := "Alpha", status := "440-BILLED",
          curr := some "XYZ", ordDt := some (2025, 1),
          totalCost := CellValue.num 5, net := CellValue.num 0 }).count (normCurr "XYZ")
      = (if clean_numeric (CellValue.num 5) = 0 then 0 else 1)
        + (if clean_numeric (CellValue.num 0) = 0 then 0 else 1) :=
  ⟨c3_amended_unknown_currency.1 5 "XYZ" rfl,
   c3_amended_unknown_currency.2 _ "XYZ" rfl rfl (by decide) (by decide)⟩

/-- C4: ingestion retains a row exactly when its status is the literal
440-BILLED, the filter acting once before any aggregation (the retained
record count is the count of billed rows); on the three-row scenario
with statuses 440-BILLED, 300-PENDING, 440-BILLED the total order count
is 2. -/
theorem c4_status_filtering :
    (∀ (rows : List RawRow) (row : RawRow), row ∈ rows →
        row.status = "440-BILLED" →
        processRec row ∈ (load_and_process_data rows).1) ∧
    (∀ (rows : List RawRow) (p : PRec), p ∈ (load_and_process_data rows).1 →
        ∃ row, row ∈ rows ∧ row.status = "440-BILLED" ∧ p = processRec row) ∧
    (∀ rows : List RawRow, (load_and_process_data rows).1.length
        = (rows.filter (fun r => r.status == "440-BILLED")).length) ∧
    (load_and_process_data statusRows).1.length = 2 := by
  refine ⟨?_, ?_, ?_, rfl⟩
  · intro rows row hmem hst
    unfold load_and_process_data
    exact List.mem_map_of_mem _ (List.mem_filter.mpr ⟨hmem, by simp [hst]⟩)
  · intro rows p hp
    unfold load_and_process_data at hp
    rcases List.mem_map.mp hp with ⟨row, hrow, hpr⟩
    have h2 := List.mem_filter.mp hrow
    exact ⟨row, h2.1, by simpa using h2.2, hpr.symm⟩
  · intro rows
    simp [load_and_process_data]

/-- Witness for C4: the first billed scenario row is retained. -/
theorem c4_status_filtering_witness :
    processRec
        { acct := "A1", acctNm := "Alpha", status := "440-BILLED",
          curr := some "EUR", ordDt := some (2025, 1),
          totalCost := CellValue.num 100, net := CellValue.num 120 }
      ∈ (load_and_process_data statusRows).1 :=
  c4_status_filtering.1 statusRows _
    (by unfold statusRows; exact List.mem_cons_self _ _) rfl

/-- C5: every account aggregate's margin is exactly its NET sum minus
its total-cost sum, and the margins summed over all account aggregates
equal the grand NET sum minus the grand total-cost sum of the same
record set. -/
theorem c5_margin_additivity :
    ∀ l : List PRec,
      List.Forall (fun a => a.diff = a.netSum - a.costSum) (account_summary l) ∧
      ((account_summary l).map Agg.diff).sum
        = (l.map PRec.netEUR).sum - (l.map PRec.costEUR).sum := by
  intro l
  have hnd := nodup_uniqueKeys (l.map akey)
  have hcov : ∀ r ∈ l, akey r ∈ uniqueKeys (l.map akey) := fun r hr =>
    (mem_uniqueKeys _ _).mpr (List.mem_map_of_mem akey hr)
  constructor
  · rw [List.forall_iff_forall_mem]
    intro a ha
    rcases List.mem_map.mp ha with ⟨k, _, rfl⟩
    rfl
  · unfold account_summary
    rw [List.map_map]
    show ((uniqueKeys (l.map akey)).map
        (fun k => groupNet l k - groupCost l k)).sum = _
    rw [sum_map_sub]
    unfold groupNet groupCost
    rw [sum_over_groups akey PRec.netEUR _ l hnd hcov,
        sum_over_groups akey PRec.costEUR _ l hnd hcov]

/-- C6 counterexample: for an account aggregate whose total-cost sum is
exactly zero and whose NET sum is positive, the margin-percentage column
evaluates to positive infinity under float semantics — it is coerced to
infinity, not represented as an absent/undefined value. -/
theorem c6_counterexample :
    (account_diff [zeroCostRec]).map Prod.snd = [FloatVal.pinf] := by
  have h : account_diff [zeroCostRec]
      = [({ acct := "B", acctNm := "Beta", costSum := groupCost [zeroCostRec] ("B", "Beta"),
            netSum := groupNet [zeroCostRec] ("B", "Beta"),
            count := 1,
            diff := groupNet [zeroCostRec] ("B", "Beta")
              - groupCost [zeroCostRec] ("B", "Beta") },
          diffPct (groupCost [zeroCostRec] ("B", "Beta"))
            (groupNet [zeroCostRec] ("B", "Beta")))] := rfl
  have hc : groupCost [zeroCostRec] ("B", "Beta") = 0 := by
    simp [groupCost, zeroCostRec, akey]
  have hn : groupNet [zeroCostRec] ("B", "Beta") = 5 := by
    simp [groupNet, zeroCostRec, akey]
  rw [h, List.map_singleton, hc, hn]
  norm_num [diffPct, fpDiv, fpScale, fpRound2]

/-- C6 amended: for an account aggregate with zero total cost, the
margin-percentage value is positive infinity when the margin is
positive, negative infinity when negative, and NaN when the margin is
also zero (numpy float division semantics); it is not an explicit
absent value (the margin-percentage column is also never used as a
ranking key by the code, which sorts by absolute margin). -/
theorem c6_amended_zero_cost_pct :
    ∀ costSum netSum : ℚ, costSum = 0 →
      diffPct costSum netSum
        = (if 0 < netSum then FloatVal.pinf
           else if netSum < 0 then FloatVal.ninf else FloatVal.nan) := by
  intro c n hc
  subst hc
  by_cases h1 : 0 < n
  · norm_num [diffPct, fpDiv, fpScale, fpRound2, h1]
  · by_cases h2 : n < 0
    · norm_num [diffPct, fpDiv, fpScale, fpRound2, h1, h2]
    · norm_num [diffPct, fpDiv, fpScale, fpRound2, h1, h2]

/-- Witness for the amended C6: a zero-cost aggregate with NET 5 takes
the positive-infinity branch. -/
theorem c6_amended_zero_cost_pct_witness :
    diffPct 0 5
      = (if (0 : ℚ) < 5 then FloatVal.pinf
         else if (5 : ℚ) < 0 then FloatVal.ninf else FloatVal.nan) :=
  c6_amended_zero_cost_pct 0 5 rfl

/-- C7 counterexample: a billed row whose order date failed to parse is
retained, but its month bucket is the string NaT, not Unknown: the
month group-by of a one-row ingestion has the single key NaT and no
Unknown key. -/
theorem c7_counterexample :
    (processRec natRow).month = "NaT" ∧
    (load_and_process_data [natRow]).1.map PRec.month = ["NaT"] ∧
    "NaT" ∈ monthKeys (load_and_process_data [natRow]).1 ∧
    "Unknown" ∉ monthKeys (load_and_process_data [natRow]).1 := by
  refine ⟨rfl, rfl, ?_, ?_⟩
  · unfold monthKeys
    rw [mem_uniqueKeys]
    simp [load_and_process_data, natRow, processRec, monthKey]
  · unfold monthKeys
    rw [mem_uniqueKeys]
    simp [load_and_process_data, natRow, processRec, monthKey]

/-- C7 amended: a billed row whose order date failed to parse is
retained in the processed record set with the explicit NaT month
marker, and the month group-by buckets it under the key NaT, never
Unknown (the Unknown literal at line 121 of `app1.py` is dead code:
line 64 reads the order-date column unconditionally, so a source with
no such column fails ingestion as a whole at the outer handler, and
after line 64 the column always exists). -/
theorem c7_amended_nat_bucket :
    ∀ (rows : List RawRow) (row : RawRow), row ∈ rows →
      row.status = "440-BILLED" → row.ordDt = none →
      processRec row ∈ (load_and_process_data rows).1 ∧
      (processRec row).month = "NaT" ∧
      "NaT" ∈ monthKeys (load_and_process_data rows).1 := by
  intro rows row hmem hst hdt
  have hin : processRec row ∈ (load_and_process_data rows).1 := by
    unfold load_and_process_data
    exact List.mem_map_of_mem _ (List.mem_filter.mpr ⟨hmem, by simp [hst]⟩)
  have hmonth : (processRec row).month = "NaT" := by
    show monthKey row.ordDt = "NaT"
    rw [hdt]
    rfl
  refine ⟨hin, hmonth, ?_⟩
  unfold monthKeys
  rw [mem_uniqueKeys]
  exact hmonth ▸ List.mem_map_of_mem PRec.month hin

/-- Witness for the amended C7 at a concrete NaT row. -/
theorem c7_amended_nat_bucket_witness :
    (processRec natRow).month = "NaT" ∧
    "NaT" ∈ monthKeys (load_and_process_data [natRow]).1 :=
  ⟨(c7_amended_nat_bucket [natRow] natRow (List.mem_cons_self _ _) rfl rfl).2.1,
   (c7_amended_nat_bucket [natRow] natRow (List.mem_cons_self _ _) rfl rfl).2.2⟩

/-- C8 counterexample: the text cell -5 cleans to the negative amount
-5, so cleaned monetary fields are not always non-negative. -/
theorem c8_counterexample :
    clean_numeric (CellValue.text "-5") = -5 ∧
    clean_numeric (CellValue.text "-5") < 0 := by
  have h : clean_numeric (CellValue.text "-5") = -(natOfDigits ['5'] : ℚ) := rfl
  rw [h, show natOfDigits ['5'] = 5 from by decide]
  norm_num

/-- C8 amended: numeric cleaning yields a non-negative amount whenever
the cell is blank, unparsable, a non-negative number, or text parsing
to a non-negative number — but a text cell parsing to a negative number
cleans to that negative value; currency conversion preserves
non-negativity (all table rates are positive and the fallback is the
identity). -/
theorem c8_amended_nonneg :
    clean_numeric CellValue.blank = 0 ∧
    (∀ q : ℚ, 0 ≤ q → 0 ≤ clean_numeric (CellValue.num q)) ∧
    (∀ s : String, parseDecCore (trimWs (stripSeps s)) = none →
        0 ≤ clean_numeric (CellValue.text s)) ∧
    (∀ (s : String) (q : ℚ), parseDecCore (trimWs (stripSeps s)) = some q →
        0 ≤ q → 0 ≤ clean_numeric (CellValue.text s)) ∧
    (∀ (v : ℚ) (cur : Option String), 0 ≤ v →
        0 ≤ (convert_to_eur (some v) cur).1) := by
  refine ⟨rfl, fun q hq => hq, ?_, ?_, ?_⟩
  · intro s hs
    rw [clean_numeric_parse_none s hs]
  · intro s q hq hq0
    rw [clean_numeric_parse_some s q hq]
    exact hq0
  · intro v cur hv
    by_cases h0 : v = 0
    · subst h0
      rw [convert_to_eur_zero]
    · cases cur with
      | none =>
          rw [convert_to_eur_none_curr, if_neg h0]
          simpa using hv
      | some c =>
          rcases hl : lookupRate (normCurr c) with _ | r
          · rw [convert_to_eur_unknown v c hl]
            exact hv
          · rw [convert_to_eur_known v c r hl]
            exact mul_nonneg hv (le_of_lt (lookupRate_pos _ r hl))

/-- Witness for the amended C8: non-negativity at a concrete numeric
cell and a concrete GBP conversion. -/
theorem c8_amended_nonneg_witness :
    0 ≤ clean_numeric (CellValue.num 3) ∧
    0 ≤ (convert_to_eur (some 2) (some "GBP")).1 :=
  ⟨c8_amended_nonneg.2.1 3 (by norm_num),
   c8_amended_nonneg.2.2.2.2 2 (some "GBP") (by norm_num)⟩

/-- C9: the account group-by is permutation-invariant — permuting the
record set changes no account's total-cost sum, NET sum or order count,
and leaves the set of group keys unchanged. -/
theorem c9_groupby_perm_invariant :
    ∀ (l l2 : List PRec), l.Perm l2 →
      (∀ k, groupCost l k = groupCost l2 k ∧ groupNet l k = groupNet l2 k ∧
          groupCount l k = groupCount l2 k) ∧
      (∀ k, k ∈ uniqueKeys (l.map akey) ↔ k ∈ uniqueKeys (l2.map akey)) := by
  intro l l2 hp
  constructor
  · intro k
    have hf : (l.filter (fun p => decide (akey p = k))).Perm
        (l2.filter (fun p => decide (akey p = k))) := hp.filter _
    exact ⟨(hf.map PRec.costEUR).sum_eq, (hf.map PRec.netEUR).sum_eq, hf.length_eq⟩
  · intro k
    rw [mem_uniqueKeys, mem_uniqueKeys]
    exact (hp.map akey).mem_iff

/-- Witness for C9: swapping the first two demo records leaves account
A's total-cost sum unchanged. -/
theorem c9_groupby_perm_invariant_witness :
    groupCost demoRecs ("A", "Alpha") = groupCost demoRecsPerm ("A", "Alpha") :=
  (((c9_groupby_perm_invariant demoRecs demoRecsPerm
      (by unfold demoRecs demoRecsPerm; exact List.Perm.swap _ _ _)).1)
    ("A", "Alpha")).1

/-- C10: an account aggregate appears in the negative-accounts report
exactly when its margin is strictly negative or its total cost is
strictly positive with NET exactly zero, and the report is sorted
ascending by margin (most negative first). -/
theorem c10_negative_accounts_report :
    ∀ (l : List PRec) (a : Agg),
      (a ∈ negative_accounts l ↔
        a ∈ account_summary l ∧
          (a.diff < 0 ∨ (0 < a.costSum ∧ a.netSum = 0))) ∧
      (negative_accounts l).Pairwise (fun x y => x.diff ≤ y.diff) := by
  intro l a
  constructor
  · unfold negative_accounts
    rw [List.mem_mergeSort, List.mem_filter]
    unfold negPred
    simp [decide_eq_true_eq]
  · unfold negative_accounts
    refine List.Pairwise.imp (fun h => of_decide_eq_true h)
      (List.sorted_mergeSort ?_ ?_ _)
    · intro x y z h1 h2
      simp only [decide_eq_true_eq] at h1 h2 ⊢
      exact le_trans h1 h2
    · intro x y
      simp only [Bool.or_eq_true, decide_eq_true_eq]
      exact le_total _ _

end CostsYTD
